import Mathlib

/-!
Verification development for the `essi-ffmpeg` crate (src/src/lib.rs).

The Rust code is shallowly embedded: strings are handled as `List Char`
(a Rust `&str` is a sequence of chars for the operations used here),
`Vec<String>` becomes `List String`, `Option<usize>` becomes `Option Nat`,
and `f32` parsing is modelled over `ℚ` (the claims only evaluate it at
decimal literals such as `512.0` that `f32` represents exactly; `inf`,
`nan` and exponent forms, which the claims never exercise, are out of
the model and parse to `none`).
-/

namespace EssiFFmpeg

/-- ASCII whitespace, the fragment of Rust `char::is_whitespace` exercised
by the progress wire format (the records are ASCII `key=value` lines). -/
def isWsChar (c : Char) : Bool :=
  c = ' ' || c = '\t' || c = '\n' || c = '\r' || c = '\x0b' || c = '\x0c'

/-- Model of Rust `str::trim`: drop whitespace from both ends. -/
def trimChars (l : List Char) : List Char :=
  ((l.dropWhile isWsChar).reverse.dropWhile isWsChar).reverse

/-- Model of Rust `str::split('\n')`: split into the (possibly empty)
segments between newline characters; the empty string yields `[[]]`. -/
def splitOnNl : List Char → List (List Char)
  | [] => [[]]
  | c :: cs =>
    match splitOnNl cs with
    | [] => [[]]
    | g :: gs => if c = '\n' then [] :: g :: gs else (c :: g) :: gs

/-- Model of Rust `str::split_once(sep)` for a one-character pattern:
split at the first occurrence, `none` when the character is absent. -/
def splitOnceChar (sep : Char) : List Char → Option (List Char × List Char)
  | [] => none
  | c :: cs =>
    if c = sep then some ([], cs)
    else (splitOnceChar sep cs).map fun p => (c :: p.1, p.2)

/-- Model of Rust `str::split_once(pat)` for a string pattern:
split around the first occurrence of `pat`, `none` when absent. -/
def splitOnceStr (pat : List Char) : List Char → Option (List Char × List Char)
  | [] => if pat = [] then some ([], []) else none
  | c :: cs =>
    if pat.isPrefixOf (c :: cs) then some ([], (c :: cs).drop pat.length)
    else (splitOnceStr pat cs).map fun p => (c :: p.1, p.2)

/-- Model of Rust `str::ends_with(suffix)`. -/
def endsWithChars (l suffix : List Char) : Bool :=
  l.drop (l.length - suffix.length) = suffix

/-- Numeric value of an ASCII digit. -/
def digitVal (c : Char) : Option Nat :=
  if '0' ≤ c ∧ c ≤ '9' then some (c.toNat - '0'.toNat) else none

def parseDigitsAux : List Char → Nat → Option Nat
  | [], acc => some acc
  | c :: cs, acc => (digitVal c).bind fun d => parseDigitsAux cs (acc * 10 + d)

/-- A non-empty all-ASCII-digit string read as a natural number. -/
def parseDigits : List Char → Option Nat
  | [] => none
  | c :: cs => parseDigitsAux (c :: cs) 0

/-- Model of Rust `usize::from_str` (used via `value.parse::<usize>().ok()`):
an optional leading `+`, then at least one digit, bounded by `2^64`. -/
def parseUsize (l : List Char) : Option Nat :=
  let body := if l.head? = some '+' then l.tail else l
  (parseDigits body).bind fun n => if n < 2 ^ 64 then some n else none

/-- Model of Rust `f32::from_str` (used via `.parse::<f32>().ok()`) on the
plain decimal forms the progress stream carries: optional sign, digits,
optional `.` and fraction digits. The value is kept exactly as a rational;
`inf`/`nan`/exponent inputs are not modelled and parse to `none`. -/
def parseF32 (l : List Char) : Option ℚ :=
  let neg := l.head? = some '-'
  let body := if l.head? = some '-' ∨ l.head? = some '+' then l.tail else l
  let mag : Option (Nat × Nat) :=
    match splitOnceChar '.' body with
    | none => (parseDigits body).map fun n => (n, 0)
    | some (intPart, fracPart) =>
      match parseDigits intPart, parseDigits fracPart with
      | some ip, some fp => some (ip * 10 ^ fracPart.length + fp, fracPart.length)
      | some ip, none => if fracPart = [] then some (ip, 0) else none
      | none, some fp => if intPart = [] then some (fp, fracPart.length) else none
      | none, none => none
  mag.map fun m => mkRat (if neg then -(m.1 : Int) else (m.1 : Int)) (10 ^ m.2)

/-- `FFmpegProgressStatus` from src/src/lib.rs. -/
inductive FFmpegProgressStatus
  | Continue
  | End
deriving DecidableEq, Repr

/-- Model of `impl FromStr for FFmpegProgressStatus` composed with `.ok()`:
`"continue"` and `"end"` parse, everything else is an error (hence `none`). -/
def FFmpegProgressStatus.fromStr (l : List Char) : Option FFmpegProgressStatus :=
  if l = "continue".data then some .Continue
  else if l = "end".data then some .End
  else none

/-- `FFmpegProgress` from src/src/lib.rs; `#[derive(Default)]` makes every
field `None`, mirrored by the `none` field defaults. -/
structure FFmpegProgress where
  frame : Option Nat := none
  fps : Option Nat := none
  bitrate : Option ℚ := none
  total_size : Option Nat := none
  out_time_us : Option Nat := none
  out_time_ms : Option Nat := none
  dup_frames : Option Nat := none
  drop_frames : Option Nat := none
  speed : Option ℚ := none
  progress : Option FFmpegProgressStatus := none
deriving DecidableEq, Repr

/-- One iteration of the `for kv in ffmpeg_kv` loop of
`impl From<String> for FFmpegProgress`: a line without `=` is skipped,
key and value are trimmed, known keys assign their field (best-effort
parse, failure leaves `none`), unknown keys fall to the `_ => {}` arm. -/
def FFmpegProgress.applyLine (p : FFmpegProgress) (line : List Char) : FFmpegProgress :=
  match splitOnceChar '=' line with
  | none => p
  | some (k, v) =>
    let key := trimChars k
    let value := trimChars v
    if key = "frame".data then { p with frame := parseUsize value }
    else if key = "fps".data then { p with fps := parseUsize value }
    else if key = "bitrate".data then
      { p with bitrate := (splitOnceStr "kbits".data value).bind fun q => parseF32 q.1 }
    else if key = "total_size".data then { p with total_size := parseUsize value }
    else if key = "out_time_us".data then { p with out_time_us := parseUsize value }
    else if key = "out_time_ms".data then { p with out_time_ms := parseUsize value }
    else if key = "dup_frames".data then { p with dup_frames := parseUsize value }
    else if key = "drop_frames".data then { p with drop_frames := parseUsize value }
    else if key = "speed".data then
      { p with speed := (splitOnceStr "x".data value).bind fun q => parseF32 q.1 }
    else if key = "progress".data then { p with progress := FFmpegProgressStatus.fromStr value }
    else p

/-- Model of `impl From<String> for FFmpegProgress`: split the record on
newlines and fold every line into a default snapshot. -/
def FFmpegProgress.fromChars (l : List Char) : FFmpegProgress :=
  (splitOnNl l).foldl FFmpegProgress.applyLine {}

/-- The same parser applied to a Lean string literal. -/
def FFmpegProgress.fromString (s : String) : FFmpegProgress :=
  FFmpegProgress.fromChars s.data

/-- Outcome of one `listener.read` in the monitor thread of
`start_listen_progress`: `ok chunk` is `Ok(len)` with the chunk's bytes as
text, `err` is the `else { continue }` arm of the `let Ok(len) = ...`. -/
inductive ReadResult
  | ok (chunk : String)
  | err
deriving DecidableEq, Repr

/-- The `while !has_ended` read loop of `start_listen_progress`, driven by the
finite trace of read results it observes, returning the records it dispatches
for enqueueing in order. Each iteration starts from an empty
`progress_string`, pushes the trimmed chunk, sets `has_ended` when that text
ends with `"end"`, and always parses and dispatches the record; a failed read
skips to the next read. -/
def monitorLoop : List ReadResult → List FFmpegProgress
  | [] => []
  | .err :: rest => monitorLoop rest
  | .ok chunk :: rest =>
    let progressString := trimChars chunk.data
    let record := FFmpegProgress.fromChars progressString
    if endsWithChars progressString "end".data then [record]
    else record :: monitorLoop rest

/-- `FFmpegBuilder` from src/src/lib.rs. `cmdArgs` is the argument list that
`inner_command` (a `std::process::Command`) has accumulated through
`Command::args`; `inner_args` and `inserting_offset` are the fields of the
same names. The `PhantomData<M>` mode marker has no runtime content; the
`Normal`/`IO`-mode methods are modelled as separate functions below, and
`FFmpegBuilder::into` is the identity on this state. -/
structure FFmpegBuilder where
  cmdArgs : List String
  inner_args : List String
  inserting_offset : Option Nat
deriving DecidableEq, Repr

namespace FFmpegBuilder

/-- `FFmpeg::new_with_program`: fresh command, no args, offset `Some(0)`. -/
def newWithProgram : FFmpegBuilder :=
  { cmdArgs := [], inner_args := [], inserting_offset := some 0 }

/-- `List.take n l ++ a :: List.drop n l`, the model of `Vec::insert(n, a)`
(all reachable builder states keep the offset within bounds, where the two
agree). -/
def insertAt (l : List String) (n : Nat) (a : String) : List String :=
  l.take n ++ a :: l.drop n

/-- `FFmpegBuilder<Normal>::arg`: push at the end of `inner_args`. -/
def normalArg (b : FFmpegBuilder) (a : String) : FFmpegBuilder :=
  { b with inner_args := b.inner_args ++ [a] }

/-- `FFmpegBuilder<Normal>::args`: repeated `arg`. -/
def normalArgs (b : FFmpegBuilder) (l : List String) : FFmpegBuilder :=
  l.foldl normalArg b

/-- `FFmpegBuilder<Normal>::input_with_file`: record the cursor at the current
end of `inner_args`, then append `-i <path>`. -/
def inputWithFile (b : FFmpegBuilder) (path : String) : FFmpegBuilder :=
  { b with inserting_offset := some b.inner_args.length,
           inner_args := b.inner_args ++ ["-i", path] }

/-- `FFmpegBuilder<Normal>::output_as_file`: record the cursor at the current
end of `inner_args`, then append `-y <path>`. -/
def outputAsFile (b : FFmpegBuilder) (path : String) : FFmpegBuilder :=
  { b with inserting_offset := some b.inner_args.length,
           inner_args := b.inner_args ++ ["-y", path] }

/-- `FFmpegBuilder<IO>::arg`: insert at `inserting_offset.unwrap_or(len)` and
advance the offset by one when it is set. -/
def ioArg (b : FFmpegBuilder) (a : String) : FFmpegBuilder :=
  { b with inner_args := insertAt b.inner_args (b.inserting_offset.getD b.inner_args.length) a,
           inserting_offset := b.inserting_offset.map (· + 1) }

/-- `FFmpegBuilder<IO>::args`: repeated `IO`-mode `arg`. -/
def ioArgs (b : FFmpegBuilder) (l : List String) : FFmpegBuilder :=
  l.foldl ioArg b

/-- `FFmpegBuilder<IO>::codec_audio`: `args(["-c:a", codec])`. -/
def codecAudio (b : FFmpegBuilder) (codec : String) : FFmpegBuilder :=
  b.ioArgs ["-c:a", codec]

/-- `FFmpegBuilder<IO>::codec_video`: `args(["-c:v", codec])`. -/
def codecVideo (b : FFmpegBuilder) (codec : String) : FFmpegBuilder :=
  b.ioArgs ["-c:v", codec]

/-- `FFmpegBuilder<IO>::format`: `splice(at..at, ["-f", fmt])` at
`at = inserting_offset.unwrap_or(len)`, leaving the offset unchanged. -/
def format (b : FFmpegBuilder) (fmt : String) : FFmpegBuilder :=
  let at_ := b.inserting_offset.getD b.inner_args.length
  { b with inner_args := b.inner_args.take at_ ++ ["-f", fmt] ++ b.inner_args.drop at_ }

/-- `FFmpegBuilder<IO>::done`: clear the offset, then `into()` (which copies
every field unchanged). -/
def done (b : FFmpegBuilder) : FFmpegBuilder :=
  { b with inserting_offset := none }

/-- `FFmpegBuilder<Normal>::start`: `self.inner_command.args(&self.inner_args)`
followed by `spawn`. `Command::args` appends to the arguments already staged
on the command, and the spawned process receives the staged list; `start`
takes `&mut self`, so the model returns the updated builder next to the
argument vector the spawned process receives. -/
def start (b : FFmpegBuilder) : FFmpegBuilder × List String :=
  ({ b with cmdArgs := b.cmdArgs ++ b.inner_args }, b.cmdArgs ++ b.inner_args)

end FFmpegBuilder

/-- State of the spawned child process and its stdin handle, the part of
`std::process::Child` that `FFmpegCommand::stop`, `force_stop` and `Drop`
interact with. `running` and `reaped` track the OS process; `stdinTaken`
models `Option<ChildStdin>` being `None` after `stdin.take()`;
`stdinWriteFails` fixes whether the `write(b"q")` call returns an error;
`stdinBytes` records the bytes successfully written. -/
structure ChildState where
  running : Bool
  reaped : Bool
  stdinTaken : Bool
  stdinWriteFails : Bool
  stdinBytes : List Char
deriving DecidableEq, Repr

namespace ChildState

/-- How a call to `FFmpegCommand::stop` finishes: `Ok(())`, an `Err` via `?`,
or a panic from `.expect("Stdin has been taken")`. -/
inductive StopOutcome
  | ok
  | ioErr
  | panicked
deriving DecidableEq, Repr

/-- `ChildStdin::write(bytes)`: `none` models an `Err`, otherwise the bytes
are appended to the stream. -/
def writeStdin (c : ChildState) (bytes : List Char) : Option ChildState :=
  if c.stdinWriteFails then none
  else some { c with stdinBytes := c.stdinBytes ++ bytes }

/-- `Child::wait`: blocks until the process exits and reaps it. -/
def wait (c : ChildState) : ChildState :=
  { c with running := false, reaped := true }

/-- `Child::kill` (Rust std semantics): a child already reaped by `wait`
cannot be signalled — `kill` returns `Err(InvalidInput)`; otherwise the
process is terminated and `Ok(())` is returned. -/
def kill (c : ChildState) : Option ChildState :=
  if c.reaped then none else some { c with running := false }

/-- `impl Drop for FFmpegCommand`: `let _ = self.inner_child.kill()` — the
kill error is discarded. -/
def dropChild (c : ChildState) : ChildState :=
  if c.reaped then c else { c with running := false }

/-- `FFmpegCommand::force_stop(self)`: `kill()?`, and `self` is dropped on
both exits of the consumed handle. -/
def forceStop (c : ChildState) : StopOutcome × ChildState :=
  match kill c with
  | none => (.ioErr, dropChild c)
  | some c1 => (.ok, dropChild c1)

/-- `FFmpegCommand::stop(self)`:
`stdin.take().expect(..)` panics when the stdin handle was already taken
(the handle is dropped during unwinding, killing the process);
`.write(b"q")?` propagates a write error (again dropping the handle);
otherwise `wait()?` reaps the process and `force_stop()?` is attempted. -/
def stop (c : ChildState) : StopOutcome × ChildState :=
  if c.stdinTaken then (.panicked, dropChild c)
  else
    match writeStdin c ['q'] with
    | none => (.ioErr, dropChild c)
    | some c1 =>
      let c2 := wait c1
      forceStop c2

end ChildState

/-- A non-`format` modifier call available between declaring an input/output
and finalizing it: `codec_audio`, `codec_video`, or the raw `IO`-mode
`arg`/`args`. -/
inductive Modifier
  | codecAudio (codec : String)
  | codecVideo (codec : String)
  | rawArg (a : String)
  | rawArgs (l : List String)
deriving DecidableEq, Repr

/-- The argument tokens a modifier call contributes. -/
def Modifier.tokens : Modifier → List String
  | .codecAudio c => ["-c:a", c]
  | .codecVideo c => ["-c:v", c]
  | .rawArg a => [a]
  | .rawArgs l => l

/-- Concatenated tokens of a sequence of modifier calls, in call order. -/
def modTokens : List Modifier → List String
  | [] => []
  | m :: ms => m.tokens ++ modTokens ms

namespace FFmpegBuilder

/-- Dispatch one modifier call onto the builder. -/
def applyMod (b : FFmpegBuilder) : Modifier → FFmpegBuilder
  | .codecAudio c => b.codecAudio c
  | .codecVideo c => b.codecVideo c
  | .rawArg a => b.ioArg a
  | .rawArgs l => b.ioArgs l

/-- Apply a sequence of modifier calls in order. -/
def applyMods (b : FFmpegBuilder) (ms : List Modifier) : FFmpegBuilder :=
  ms.foldl applyMod b

/-- Apply a sequence of `format` calls in order. -/
def applyFormats (b : FFmpegBuilder) (fmts : List String) : FFmpegBuilder :=
  fmts.foldl format b

/-- The `-f <fmt>` pairs a sequence of `format` calls leaves behind, most
recent call first (each call reinserts at the unchanged cursor, pushing the
earlier pairs rightwards). -/
def fmtTokensRev : List String → List String
  | [] => []
  | f :: fs => fmtTokensRev fs ++ ["-f", f]

theorem ioArg_shift (cmd P S : List String) (a : String) :
    ioArg ⟨cmd, P ++ S, some P.length⟩ a
      = ⟨cmd, (P ++ [a]) ++ S, some (P ++ [a]).length⟩ := by
  simp [ioArg, insertAt, List.take_left, List.drop_left]

theorem ioArgs_shift (cmd S : List String) (l : List String) :
    ∀ P : List String, ioArgs ⟨cmd, P ++ S, some P.length⟩ l
      = ⟨cmd, (P ++ l) ++ S, some (P ++ l).length⟩ := by
  induction l with
  | nil => intro P; simp [ioArgs]
  | cons a l ih =>
    intro P
    have h1 : ioArgs ⟨cmd, P ++ S, some P.length⟩ (a :: l)
        = ioArgs (ioArg ⟨cmd, P ++ S, some P.length⟩ a) l := rfl
    rw [h1, ioArg_shift, ih (P ++ [a])]
    simp

theorem applyMod_shift (cmd P S : List String) (m : Modifier) :
    applyMod ⟨cmd, P ++ S, some P.length⟩ m
      = ⟨cmd, (P ++ m.tokens) ++ S, some (P ++ m.tokens).length⟩ := by
  cases m with
  | codecAudio c => exact ioArgs_shift cmd S ["-c:a", c] P
  | codecVideo c => exact ioArgs_shift cmd S ["-c:v", c] P
  | rawArg a => exact ioArg_shift cmd P S a
  | rawArgs l => exact ioArgs_shift cmd S l P

theorem applyMods_shift (cmd S : List String) (ms : List Modifier) :
    ∀ P : List String, applyMods ⟨cmd, P ++ S, some P.length⟩ ms
      = ⟨cmd, (P ++ modTokens ms) ++ S, some (P ++ modTokens ms).length⟩ := by
  induction ms with
  | nil => intro P; simp [applyMods, modTokens]
  | cons m ms ih =>
    intro P
    have h1 : applyMods ⟨cmd, P ++ S, some P.length⟩ (m :: ms)
        = applyMods (applyMod ⟨cmd, P ++ S, some P.length⟩ m) ms := rfl
    rw [h1, applyMod_shift, ih (P ++ m.tokens)]
    simp [modTokens, List.append_assoc]

theorem format_shift (cmd P S : List String) (f : String) :
    format ⟨cmd, P ++ S, some P.length⟩ f
      = ⟨cmd, P ++ (["-f", f] ++ S), some P.length⟩ := by
  simp [format, List.take_left, List.drop_left]

theorem applyFormats_shift (cmd : List String) (fs : List String) :
    ∀ P S : List String, applyFormats ⟨cmd, P ++ S, some P.length⟩ fs
      = ⟨cmd, P ++ (fmtTokensRev fs ++ S), some P.length⟩ := by
  induction fs with
  | nil => intro P S; simp [applyFormats, fmtTokensRev]
  | cons f fs ih =>
    intro P S
    have h1 : applyFormats ⟨cmd, P ++ S, some P.length⟩ (f :: fs)
        = applyFormats (format ⟨cmd, P ++ S, some P.length⟩ f) fs := rfl
    rw [h1, format_shift, ih P (["-f", f] ++ S)]
    simp [fmtTokensRev, List.append_assoc]

/-- Any builder whose cursor is in bounds decomposes as a `P ++ S` split at
the cursor, the shape the shift lemmas consume. -/
theorem eta_split (b : FFmpegBuilder) (k : Nat) (hk : b.inserting_offset = some k)
    (hle : k ≤ b.inner_args.length) :
    b = ⟨b.cmdArgs, b.inner_args.take k ++ b.inner_args.drop k, some (b.inner_args.take k).length⟩ := by
  cases b with
  | mk cmd args off =>
    simp only [FFmpegBuilder.mk.injEq]
    refine ⟨trivial, by rw [List.take_append_drop], ?_⟩
    simp at hk hle
    rw [hk, List.length_take, Nat.min_eq_left hle]

end FFmpegBuilder

/-- C1: for every builder, declaring an input (`input_with_file`) or output
(`output_as_file`) and then making any sequence of non-format modifier calls
(`codec_audio`, `codec_video`, raw `arg`/`args`) before finalizing yields an
argument vector in which each modifier's tokens are contiguous, the modifiers
appear in call order among themselves, and all of them sit strictly before
the declared stream's token pair (`-i <path>` for inputs, `-y <path>` for
outputs). -/
theorem modifier_tokens_in_call_order_before_stream_pair
    (b : FFmpegBuilder) (path : String) (ms : List Modifier) :
    (((b.inputWithFile path).applyMods ms).done).inner_args
        = b.inner_args ++ modTokens ms ++ ["-i", path]
  ∧ (((b.outputAsFile path).applyMods ms).done).inner_args
        = b.inner_args ++ modTokens ms ++ ["-y", path] := by
  constructor
  · show (FFmpegBuilder.done (FFmpegBuilder.applyMods
      ⟨b.cmdArgs, b.inner_args ++ ["-i", path], some b.inner_args.length⟩ ms)).inner_args = _
    rw [FFmpegBuilder.applyMods_shift b.cmdArgs ["-i", path] ms b.inner_args]
    rfl
  · show (FFmpegBuilder.done (FFmpegBuilder.applyMods
      ⟨b.cmdArgs, b.inner_args ++ ["-y", path], some b.inner_args.length⟩ ms)).inner_args = _
    rw [FFmpegBuilder.applyMods_shift b.cmdArgs ["-y", path] ms b.inner_args]
    rfl

/-- C4: for a builder in the Described state (cursor set, in bounds), each
`format(fmt)` call inserts the two tokens `-f <fmt>` exactly at the insertion
cursor and leaves the cursor unchanged; consequently, after any sequence of
`format` calls every `-f <fmt>` pair is preserved and the most recent call's
pair occupies the cursor position. -/
theorem format_reinserts_at_cursor :
    (∀ (b : FFmpegBuilder) (k : Nat) (fmt : String),
        b.inserting_offset = some k → k ≤ b.inner_args.length →
        (b.format fmt).inner_args
            = b.inner_args.take k ++ ["-f", fmt] ++ b.inner_args.drop k
          ∧ (b.format fmt).inserting_offset = some k)
  ∧ (∀ (b : FFmpegBuilder) (k : Nat) (fmts : List String),
        b.inserting_offset = some k → k ≤ b.inner_args.length →
        (b.applyFormats fmts).inner_args
            = b.inner_args.take k ++ FFmpegBuilder.fmtTokensRev fmts ++ b.inner_args.drop k
          ∧ (b.applyFormats fmts).inserting_offset = some k) := by
  constructor
  · intro b k fmt hk hle
    have h := FFmpegBuilder.format_shift b.cmdArgs (b.inner_args.take k) (b.inner_args.drop k) fmt
    have hlen : (b.inner_args.take k).length = k := by
      rw [List.length_take, Nat.min_eq_left hle]
    constructor
    · conv_lhs => rw [FFmpegBuilder.eta_split b k hk hle]
      rw [h]
      simp [List.append_assoc]
    · conv_lhs => rw [FFmpegBuilder.eta_split b k hk hle]
      rw [h, hlen]
  · intro b k fmts hk hle
    have h := FFmpegBuilder.applyFormats_shift b.cmdArgs fmts
      (b.inner_args.take k) (b.inner_args.drop k)
    have hlen : (b.inner_args.take k).length = k := by
      rw [List.length_take, Nat.min_eq_left hle]
    constructor
    · conv_lhs => rw [FFmpegBuilder.eta_split b k hk hle]
      rw [h]
      simp [List.append_assoc]
    · conv_lhs => rw [FFmpegBuilder.eta_split b k hk hle]
      rw [h, hlen]

/-- Witness for C4: on the builder obtained by declaring the input
`in.flv` (cursor `0`), one `format` call lands at the cursor, and two
`format` calls keep both pairs with the latest at the cursor. -/
theorem format_reinserts_at_cursor_witness :
    ((FFmpegBuilder.newWithProgram.inputWithFile "in.flv").format "flv").inner_args
        = ["-f", "flv", "-i", "in.flv"]
  ∧ ((FFmpegBuilder.newWithProgram.inputWithFile "in.flv").applyFormats ["flv", "mp4"]).inner_args
        = ["-f", "mp4", "-f", "flv", "-i", "in.flv"] := by
  have h1 := (format_reinserts_at_cursor.1
    (FFmpegBuilder.newWithProgram.inputWithFile "in.flv") 0 "flv" (by decide) (by decide)).1
  have h2 := (format_reinserts_at_cursor.2
    (FFmpegBuilder.newWithProgram.inputWithFile "in.flv") 0 ["flv", "mp4"] (by decide) (by decide)).1
  exact ⟨h1.trans (by decide), h2.trans (by decide)⟩

/-- C5 counterexample: declaring the input `in.mp4` on a fresh builder
appends the pair `-i in.mp4` (indices `0` and `1`), so "right after the
`-i <path>` tokens" is index `2`; the code instead sets the cursor to `0`,
the position of the pair itself. -/
theorem input_cursor_not_after_pair_counterexample :
    (FFmpegBuilder.newWithProgram.inputWithFile "in.mp4").inner_args = ["-i", "in.mp4"]
  ∧ (FFmpegBuilder.newWithProgram.inputWithFile "in.mp4").inserting_offset = some 0
  ∧ some 0 ≠ some ((2 : Nat)) := by decide

/-- C5 (amended): whenever an input or output is declared, the insertion
cursor is set to the index at which the `-i <path>` / `-y <path>` pair is
appended — immediately before the pair, the old length of the list — and
finalizing the description clears the cursor. -/
theorem declare_sets_cursor_before_pair_done_clears
    (b : FFmpegBuilder) (path : String) :
    (b.inputWithFile path).inserting_offset = some b.inner_args.length
  ∧ (b.inputWithFile path).inner_args = b.inner_args ++ ["-i", path]
  ∧ (b.outputAsFile path).inserting_offset = some b.inner_args.length
  ∧ (b.outputAsFile path).inner_args = b.inner_args ++ ["-y", path]
  ∧ (b.done).inserting_offset = none :=
  ⟨rfl, rfl, rfl, rfl, rfl⟩

/-- C9: `done()` changes only the insertion cursor (clearing it to `none`)
and leaves every other component of the builder state unchanged — the
accumulated argument list and the staged command configuration are exactly
the same before and after the call. -/
theorem done_only_clears_cursor (b : FFmpegBuilder) :
    (b.done).inner_args = b.inner_args
  ∧ (b.done).cmdArgs = b.cmdArgs
  ∧ (b.done).inserting_offset = none :=
  ⟨rfl, rfl, rfl⟩

/-- C2 counterexample: `start` takes `&mut self` rather than consuming the
builder, and `Command::args` appends to the arguments already staged on the
inner command; calling `start` a second time on the builder passes the
argument list twice, so the spawned argument vector is not the builder's
inner argument list. -/
theorem start_does_not_consume_builder_counterexample :
    (((FFmpegBuilder.newWithProgram.normalArg "a").start.1).start).2
      ≠ ((FFmpegBuilder.newWithProgram.normalArg "a").start.1).inner_args := by decide

/-- C2 (amended): `start` borrows the builder mutably instead of consuming
it; each call appends `inner_args` to the command's staged argument list and
spawns with that staged list, so the first `start` on a builder with nothing
staged passes exactly the accumulated argument list, verbatim and in order,
while `inner_args` itself is never mutated. -/
theorem start_appends_staged_args (b : FFmpegBuilder) :
    (b.start).2 = b.cmdArgs ++ b.inner_args
  ∧ (b.start).1.inner_args = b.inner_args
  ∧ (b.start).1.cmdArgs = b.cmdArgs ++ b.inner_args
  ∧ (b.cmdArgs = [] → (b.start).2 = b.inner_args) :=
  ⟨rfl, rfl, rfl, fun h => by simp [FFmpegBuilder.start, h]⟩

/-- Witness for C2 (amended): a fresh builder with one argument and nothing
staged spawns exactly that argument list. -/
theorem start_appends_staged_args_witness :
    ((FFmpegBuilder.newWithProgram.normalArg "a").start).2 = ["a"] := by
  have h := (start_appends_staged_args (FFmpegBuilder.newWithProgram.normalArg "a")).2.2.2 (by decide)
  exact h.trans (by decide)

/-- The keys the `match` in `From<String> for FFmpegProgress` recognizes;
every other key falls to the `_ => {}` arm. -/
def knownKeys : List (List Char) :=
  ["frame".data, "fps".data, "bitrate".data, "total_size".data, "out_time_us".data,
   "out_time_ms".data, "dup_frames".data, "drop_frames".data, "speed".data, "progress".data]

/-- C8: the progress-record parse is total and never fails a whole record —
a line without a `=` separator is ignored, a line with an unknown key is
ignored, and a field with a malformed value (non-numeric integer field,
bitrate without the `kbits` suffix, speed without the `x` suffix, a progress
value other than `continue`/`end`) is left empty while the other fields
still parse. -/
theorem progress_record_parse_never_fails :
    (∀ (p : FFmpegProgress) (line : List Char),
        splitOnceChar '=' line = none → p.applyLine line = p)
  ∧ (∀ (p : FFmpegProgress) (line k v : List Char),
        splitOnceChar '=' line = some (k, v) → trimChars k ∉ knownKeys →
        p.applyLine line = p)
  ∧ (FFmpegProgress.fromString
        "frame=abc\nfps=30\nbitrate=512.0\nspeed=1.5\nprogress=done\nunknown=7\nnoseparatorline"
      = { frame := none, fps := some 30, bitrate := none, total_size := none,
          out_time_us := none, out_time_ms := none, dup_frames := none,
          drop_frames := none, speed := none, progress := none }) := by
  refine ⟨?_, ?_, by decide⟩
  · intro p line h
    unfold FFmpegProgress.applyLine
    rw [h]
  · intro p line k v hsplit hk
    unfold FFmpegProgress.applyLine
    rw [hsplit]
    simp only [knownKeys, List.mem_cons, List.not_mem_nil, or_false] at hk
    push_neg at hk
    obtain ⟨h1, h2, h3, h4, h5, h6, h7, h8, h9, h10⟩ := hk
    simp [h1, h2, h3, h4, h5, h6, h7, h8, h9, h10]

/-- Witness for C8: a separator-free line and an unknown-key line leave the
snapshot untouched. -/
theorem progress_record_parse_never_fails_witness :
    FFmpegProgress.applyLine {} "no separator line".data = {}
  ∧ FFmpegProgress.applyLine {} "foo=bar".data = {} := by
  refine ⟨progress_record_parse_never_fails.1 {} _ (by decide),
    progress_record_parse_never_fails.2.1 {} _ "foo".data "bar".data (by decide) (by decide)⟩

/-- C7: the exact text block
`"frame=120\nfps=30\nbitrate=512.0kbits/s\nprogress=continue"` parses to a
snapshot with `frame = 120`, `fps = 30`, `bitrate = 512.0`,
`progress = Continue`, and every field not present in the block (including
`total_size`) left `none`. -/
theorem progress_example_block_parses :
    FFmpegProgress.fromString "frame=120\nfps=30\nbitrate=512.0kbits/s\nprogress=continue" =
      { frame := some 120, fps := some 30, bitrate := some (512 : ℚ),
        total_size := none, out_time_us := none, out_time_ms := none,
        dup_frames := none, drop_frames := none, speed := none,
        progress := some .Continue } := by decide

/-- The trimmed value of a `key=value` line whose trimmed key is `frame`. -/
def lineFrameVal (line : List Char) : Option (List Char) :=
  match splitOnceChar '=' line with
  | none => none
  | some (k, v) => if trimChars k = "frame".data then some (trimChars v) else none

/-- The value of the last `frame` line of a record, if any. -/
def lastFrameVal : List (List Char) → Option (List Char)
  | [] => none
  | l :: ls =>
    match lastFrameVal ls with
    | some v => some v
    | none => lineFrameVal l

theorem applyLine_frame (p : FFmpegProgress) (line : List Char) :
    (p.applyLine line).frame
      = match lineFrameVal line with
        | some v => parseUsize v
        | none => p.frame := by
  unfold FFmpegProgress.applyLine lineFrameVal
  cases h : splitOnceChar '=' line with
  | none => rfl
  | some kv =>
    obtain ⟨k, v⟩ := kv
    simp only []
    by_cases hf : trimChars k = "frame".data
    · simp only [if_pos hf]
    · simp only [if_neg hf]
      split_ifs <;> rfl

theorem lastFrameVal_cons (l : List Char) (ls : List (List Char)) :
    lastFrameVal (l :: ls)
      = match lastFrameVal ls with
        | some v => some v
        | none => lineFrameVal l := rfl

theorem foldl_applyLine_frame (lines : List (List Char)) :
    ∀ p : FFmpegProgress,
      ((lines.foldl FFmpegProgress.applyLine p).frame)
        = match lastFrameVal lines with
          | some v => parseUsize v
          | none => p.frame := by
  induction lines with
  | nil => intro p; rfl
  | cons l ls ih =>
    intro p
    rw [List.foldl_cons, ih (p.applyLine l), lastFrameVal_cons]
    cases h2 : lastFrameVal ls with
    | some v => rfl
    | none => exact applyLine_frame p l

/-- C10: when a record repeats a key, the snapshot holds the parse of the
last occurrence's value — shown for the `frame` field in general, and at
the claim's two inputs: a later malformed occurrence wipes an earlier
well-formed one, and a later well-formed occurrence replaces an earlier
malformed one. -/
theorem duplicate_key_last_occurrence_wins :
    (∀ s : String,
        (FFmpegProgress.fromString s).frame
          = match lastFrameVal (splitOnNl s.data) with
            | some v => parseUsize v
            | none => none)
  ∧ (FFmpegProgress.fromString "frame=1\nframe=x").frame = none
  ∧ (FFmpegProgress.fromString "frame=x\nframe=1").frame = some 1 := by
  refine ⟨fun s => ?_, by decide, by decide⟩
  exact foldl_applyLine_frame (splitOnNl s.data) {}

/-- C6: the progress-monitor read loop terminates exactly when a read chunk
whose trimmed text ends with the literal suffix `"end"` has been processed:
that final record is still parsed and dispatched before the loop stops, a
chunk not ending in `"end"` keeps the loop running to the next read, a
failed read is skipped, and on a trace whose last chunk is the only one
ending in `"end"` every record (the final one included) is dispatched. -/
theorem monitor_loop_terminates_on_end_suffix :
    (∀ (chunk : String) (rest : List ReadResult),
        endsWithChars (trimChars chunk.data) "end".data = true →
        monitorLoop (.ok chunk :: rest)
          = [FFmpegProgress.fromChars (trimChars chunk.data)])
  ∧ (∀ (chunk : String) (rest : List ReadResult),
        endsWithChars (trimChars chunk.data) "end".data = false →
        monitorLoop (.ok chunk :: rest)
          = FFmpegProgress.fromChars (trimChars chunk.data) :: monitorLoop rest)
  ∧ (∀ rest : List ReadResult, monitorLoop (.err :: rest) = monitorLoop rest)
  ∧ (∀ (chunks : List String) (endChunk : String),
        (∀ c ∈ chunks, endsWithChars (trimChars c.data) "end".data = false) →
        endsWithChars (trimChars endChunk.data) "end".data = true →
        monitorLoop (chunks.map .ok ++ [.ok endChunk])
          = chunks.map (fun c => FFmpegProgress.fromChars (trimChars c.data))
            ++ [FFmpegProgress.fromChars (trimChars endChunk.data)]) := by
  refine ⟨?_, ?_, fun rest => rfl, ?_⟩
  · intro chunk rest h
    simp [monitorLoop, h]
  · intro chunk rest h
    simp [monitorLoop, h]
  · intro chunks endChunk hall hend
    induction chunks with
    | nil => simp [monitorLoop, hend]
    | cons c cs ih =>
      have hc := hall c (List.mem_cons_self c cs)
      have hrest := ih fun x hx => hall x (List.mem_cons_of_mem c hx)
      simp [monitorLoop, hc, hrest]

/-- Witness for C6: a two-read trace dispatches both records and stops at
the `progress=end` chunk. -/
theorem monitor_loop_terminates_on_end_suffix_witness :
    monitorLoop [.ok "frame=1", .ok "progress=end"]
      = [FFmpegProgress.fromChars (trimChars "frame=1".data),
         FFmpegProgress.fromChars (trimChars "progress=end".data)] := by
  have h := monitor_loop_terminates_on_end_suffix.2.2.2 ["frame=1"] "progress=end"
    (by decide) (by decide)
  simpa using h

/-- C3 counterexample: on a handle whose stdin has already been taken,
`stop` does not report an error result — the
`.take().expect("Stdin has been taken")` call panics. -/
theorem stop_taken_stdin_panics_counterexample :
    (ChildState.stop ⟨true, false, true, false, []⟩).1 = ChildState.StopOutcome.panicked
  ∧ ChildState.StopOutcome.panicked ≠ ChildState.StopOutcome.ioErr := by decide

/-- C3 (amended): for every well-formed process handle (a reaped child is
not running), `stop` never finishes — by return, error return, or panic —
with the process still alive; when the stdin handle is present and writable
it writes the single quit byte `q` and waits for exit; when the write of the
quit byte fails it reports the failure as an error result (the process still
being terminated by the handle's drop); but when the input stream has
already been taken `stop` panics instead of returning an error, and the
process is terminated during unwinding. -/
theorem stop_terminates_process (c : ChildState)
    (h : c.reaped = true → c.running = false) :
    ((ChildState.stop c).2.running = false)
  ∧ (c.stdinTaken = false → c.stdinWriteFails = false →
        (ChildState.stop c).2.stdinBytes = c.stdinBytes ++ ['q']
      ∧ (ChildState.stop c).2.reaped = true)
  ∧ (c.stdinTaken = false → c.stdinWriteFails = true →
        (ChildState.stop c).1 = ChildState.StopOutcome.ioErr)
  ∧ (c.stdinTaken = true → (ChildState.stop c).1 = ChildState.StopOutcome.panicked) := by
  obtain ⟨r, rp, tk, wf, bytes⟩ := c
  cases tk <;> cases wf <;> cases rp <;> cases r <;>
    simp_all [ChildState.stop, ChildState.forceStop, ChildState.writeStdin,
      ChildState.wait, ChildState.kill, ChildState.dropChild]

/-- Witness for C3 (amended): a running handle with a usable stdin ends not
running with the quit byte written. -/
theorem stop_terminates_process_witness :
    (ChildState.stop ⟨true, false, false, false, []⟩).2.running = false
  ∧ (ChildState.stop ⟨true, false, false, false, []⟩).2.stdinBytes = ['q'] := by
  have h := stop_terminates_process ⟨true, false, false, false, []⟩ (by decide)
  exact ⟨h.1, ((h.2.1 rfl rfl).1).trans (by decide)⟩

end EssiFFmpeg
